import Mathlib

/-!
Verification development for the Tacticus code-scraper (`src/app.py`).

The core under verification is the candidate-extraction and confirmation
pipeline of `fetch_and_process_posts`:

* `extract_potential_codes_from_text` (app.py:162-178): upper-case the text,
  find all candidate tokens, drop referral-shaped tokens and ignored words;
* per-post gating (app.py:325-350): extract from the title, and only when the
  title yields nothing and a body-hint pattern matches the title, extract from
  the post body instead;
* flair filtering (app.py:311-320): per-subreddit allow-lists, an empty list
  meaning "all flairs allowed";
* bucketing and confirmation (app.py:352-387): per-post de-duplicated
  candidates go to a trusted bucket (author in `TRUSTED_USERS`) or a regular
  bucket (counted, threshold 2), each bucket filtered against the set of
  already-notified codes;
* notification and persistence (app.py:389-404): sorted confirmed codes are
  notified one by one; on notification success the code is appended to the
  ledger file and added to the in-memory notified set.

The candidate-code pattern, referral-code pattern, ignored-word set, trusted
users and per-subreddit allow-lists are configuration data (`config.json`,
absent from the repository source); the token patterns are modelled from the
spec, and the finite sets are parameters of the embedding (fields of
`Config`).  The ten `BODY_HINT_PATTERNS` regexes are abstracted as a list of
opaque title predicates: every claim below concerns the gating structure, not
the regex contents.  External effects (ntfy notification, ledger file append)
are modelled by boolean success oracles `nOk`/`sOk`; the `notifyLoop` result
records the final in-memory set, the notification attempts made, and the codes
successfully appended to the ledger file.
-/

/-- Modelled from the spec: ASCII case-folding used before matching
(Python `str.upper()`, restricted to the ASCII letters candidate tokens are
drawn from).  Lower-case ASCII letters (code points 97-122) are shifted to
upper case; every other character is unchanged. -/
def upChar (c : Char) : Char :=
  if 97 ≤ c.toNat ∧ c.toNat ≤ 122 then Char.ofNat (c.toNat - 32) else c

/-- Upper-case a string character-wise, as `text.upper()` does in app.py:167. -/
def pyUpper (s : String) : String := String.mk (s.data.map upChar)

/-- ASCII upper-case letter `A`-`Z` (code points 65-90). -/
def isUpperLetter (c : Char) : Bool := decide (65 ≤ c.toNat ∧ c.toNat ≤ 90)

/-- ASCII digit `0`-`9` (code points 48-57). -/
def isDigitChar (c : Char) : Bool := decide (48 ≤ c.toNat ∧ c.toNat ≤ 57)

/-- Characters a candidate token is drawn from: upper-case letters, digits,
and the hyphen (so that referral-shaped tokens such as `ABC-12-DEF` surface
as single tokens, which the referral filter then discards). -/
def isCandidateChar (c : Char) : Bool := isUpperLetter c || isDigitChar c || c == '-'

/-- Split a character list into its maximal runs of candidate characters,
accumulating the current run (reversed) in `acc`. -/
def splitRunsAux : List Char → List Char → List (List Char)
  | [], acc => if acc.isEmpty then [] else [acc.reverse]
  | c :: rest, acc =>
    if isCandidateChar c then splitRunsAux rest (c :: acc)
    else if acc.isEmpty then splitRunsAux rest []
    else acc.reverse :: splitRunsAux rest []

/-- Modelled from the spec: `CANDIDATE_CODE_PATTERN.findall` (the pattern lives
in `config.json`, which is not part of the source tree).  Per spec §4.1 a
candidate is a word-boundary-delimited token of 3-25 candidate characters;
tokens may carry hyphens so that the referral-shape discard of §4.1 and the
`extract("ABC-12-DEF") = ∅` property of §8 are meaningful. -/
def candidateFindall (text : String) : List String :=
  ((splitRunsAux text.data []).filter
    (fun t => decide (3 ≤ t.length ∧ t.length ≤ 25))).map String.mk

/-- Modelled from the spec: the referral-code shape matched by
`REFERRAL_CODE_PATTERN` (spec §4.1): three letters, a hyphen, 2-3 digits, a
hyphen, three letters. -/
def referralShape : List Char → Bool
  | [a, b, c, '-', d, e, '-', f, g, h] =>
      isUpperLetter a && isUpperLetter b && isUpperLetter c &&
      isDigitChar d && isDigitChar e &&
      isUpperLetter f && isUpperLetter g && isUpperLetter h
  | [a, b, c, '-', d, e, f, '-', g, h, i] =>
      isUpperLetter a && isUpperLetter b && isUpperLetter c &&
      isDigitChar d && isDigitChar e && isDigitChar f &&
      isUpperLetter g && isUpperLetter h && isUpperLetter i
  | _ => false

/-- String form of the referral-shape test, as `REFERRAL_CODE_PATTERN.match`
is used on each extracted word in app.py:171. -/
def referralMatch (w : String) : Bool := referralShape w.data

/-- Embedding of `extract_potential_codes_from_text` (app.py:162-178): empty
input gives no candidates; otherwise upper-case the text, find all candidate
tokens, and keep those that neither match the referral shape nor belong to the
ignored-word set (`IGNORED_WORDS_SET` is configuration, passed as `ignored`). -/
def extract_potential_codes_from_text (ignored : List String) (text : String) : List String :=
  if text = "" then []
  else (candidateFindall (pyUpper text)).filter
    (fun w => !referralMatch w && !ignored.contains w)

/-- A normalized post, as assembled from either transport in app.py:290-309. -/
structure Post where
  id : String
  title : String
  flair : Option String
  selftext : String
  author : String
  subreddit : String

/-- The configuration data the pipeline is parameterized by:
`SUBREDDITS_CONFIG` (subreddit name to allowed flairs; flair values can be
absent, hence `Option String`), `TRUSTED_USERS`, `IGNORED_WORDS_SET`,
and the `BODY_HINT_PATTERNS` abstracted as title predicates. -/
structure Config where
  subreddits : List (String × List (Option String))
  trustedUsers : List String
  ignoredWords : List String
  bodyHintPatterns : List (String → Bool)

/-- Embedding of the flair filter (app.py:311-320): a post from a subreddit
absent from `SUBREDDITS_CONFIG` is skipped; an empty allowed-flair list lets
every flair through; otherwise the post's flair must be listed. -/
def postAccepted (cfg : Config) (p : Post) : Bool :=
  match List.lookup p.subreddit cfg.subreddits with
  | some allowedFlairs => allowedFlairs.isEmpty || allowedFlairs.contains p.flair
  | none => false

/-- Embedding of the body-hint check (app.py:333-339): the body is considered
when some pattern in `BODY_HINT_PATTERNS` matches the title (the source loop
breaks on the first match; `List.any` has the same short-circuit meaning). -/
def titleHintsBody (cfg : Config) (title : String) : Bool :=
  cfg.bodyHintPatterns.any (fun pat => pat title)

/-- Embedding of the per-post extraction (app.py:325-350): candidates come
from the title when the title yields any; otherwise from the body when a
body-hint pattern matches the title; otherwise the post yields none. -/
def postCandidates (cfg : Config) (p : Post) : List String :=
  let titleCodes := extract_potential_codes_from_text cfg.ignoredWords p.title
  if !titleCodes.isEmpty then titleCodes
  else if titleHintsBody cfg p.title then
    extract_potential_codes_from_text cfg.ignoredWords p.selftext
  else []

/-- The posts of the cycle that pass the flair filter (app.py:311-320). -/
def acceptedPosts (cfg : Config) (posts : List Post) : List Post :=
  posts.filter (postAccepted cfg)

/-- Embedding of `trusted_codes_this_run` (app.py:352-357): per-post
de-duplicated candidates of accepted posts whose author is trusted. -/
def trusted_codes_this_run (cfg : Config) (posts : List Post) : List String :=
  (acceptedPosts cfg posts).flatMap fun p =>
    if cfg.trustedUsers.contains p.author then (postCandidates cfg p).dedup else []

/-- Embedding of `all_potential_codes_this_run` (app.py:352-360): per-post
de-duplicated candidates of accepted posts whose author is not trusted. -/
def all_potential_codes_this_run (cfg : Config) (posts : List Post) : List String :=
  (acceptedPosts cfg posts).flatMap fun p =>
    if cfg.trustedUsers.contains p.author then [] else (postCandidates cfg p).dedup

/-- Embedding of the trusted-bucket confirmation (app.py:364-373): the trusted
bucket is de-duplicated across posts and every code not already notified is
confirmed. -/
def trustedNewlyConfirmed (cfg : Config) (posts : List Post) (notified : List String) :
    List String :=
  (trusted_codes_this_run cfg posts).dedup.filter (fun c => !notified.contains c)

/-- Embedding of the regular-bucket confirmation (app.py:375-387): distinct
codes of the regular bucket (the keys of `collections.Counter`) whose count is
at least 2 and that are not already notified are confirmed. -/
def regularNewlyConfirmed (cfg : Config) (posts : List Post) (notified : List String) :
    List String :=
  (all_potential_codes_this_run cfg posts).dedup.filter
    (fun c => decide (2 ≤ (all_potential_codes_this_run cfg posts).count c)
      && !notified.contains c)

/-- Lexicographic order on code points, as Python compares strings. -/
def strLt : List Char → List Char → Bool
  | [], [] => false
  | [], _ :: _ => true
  | _ :: _, [] => false
  | a :: as, b :: bs => decide (a.toNat < b.toNat) || (a.toNat == b.toNat && strLt as bs)

/-- Insert a code into a sorted list of codes, keeping it sorted. -/
def insertSorted (c : String) : List String → List String
  | [] => [c]
  | d :: rest => if strLt d.data c.data then d :: insertSorted c rest else c :: d :: rest

/-- Ascending sort of the confirmed codes, as `newly_confirmed_codes.sort()`
in app.py:394. -/
def sortCodes : List String → List String
  | [] => []
  | c :: rest => insertSorted c (sortCodes rest)

/-- The confirmed sequence of a cycle (app.py:364-394): trusted-bucket
confirmations followed by regular-bucket confirmations, sorted ascending.
The source appends the two buckets without de-duplicating across them. -/
def newly_confirmed_codes (cfg : Config) (posts : List Post) (notified : List String) :
    List String :=
  sortCodes (trustedNewlyConfirmed cfg posts notified ++ regularNewlyConfirmed cfg posts notified)

/-- Observable outcome of the notification phase: the final in-memory notified
set, the codes for which a notification was attempted (in order), and the
codes successfully appended to the ledger file. -/
structure NotifyResult where
  notifiedSet : List String
  attempts : List String
  ledger : List String

/-- Embedding of the notification loop (app.py:395-400): for each confirmed
code, attempt notification (`nOk`); on success call `save_notified_code` —
which appends to the ledger file when the write succeeds (`sOk`) and only logs
when it fails (app.py:133-140) — and add the code to the in-memory set
unconditionally; on notification failure only log. -/
def notifyLoop (nOk sOk : String → Bool) : List String → List String → NotifyResult
  | [], notified => ⟨notified, [], []⟩
  | c :: rest, notified =>
    if nOk c then
      let r := notifyLoop nOk sOk rest (notified.insert c)
      ⟨r.notifiedSet, c :: r.attempts, (if sOk c then [c] else []) ++ r.ledger⟩
    else
      let r := notifyLoop nOk sOk rest notified
      ⟨r.notifiedSet, c :: r.attempts, r.ledger⟩

/-- Embedding of the cycle entry point `fetch_and_process_posts`
(app.py:263-404), given the fetch outcome: when both transports fail
(`fetched = none`) the notified set is returned unchanged (app.py:284);
otherwise the confirmation engine runs and, when there are confirmed codes,
the notification loop runs over them in sorted order (app.py:389-404). -/
def fetch_and_process_posts (cfg : Config) (nOk sOk : String → Bool)
    (fetched : Option (List Post)) (notified : List String) : NotifyResult :=
  match fetched with
  | none => ⟨notified, [], []⟩
  | some posts =>
    let confirmed :=
      trustedNewlyConfirmed cfg posts notified ++ regularNewlyConfirmed cfg posts notified
    if confirmed.isEmpty && (trusted_codes_this_run cfg posts).isEmpty then
      ⟨notified, [], []⟩
    else if !confirmed.isEmpty then notifyLoop nOk sOk (sortCodes confirmed) notified
    else ⟨notified, [], []⟩

/-- Inserting into the sorted list is a permutation of consing. -/
theorem insertSorted_perm (c : String) (l : List String) : (insertSorted c l).Perm (c :: l) := by
  induction l with
  | nil => exact List.Perm.refl _
  | cons d rest ih =>
    unfold insertSorted
    by_cases h : strLt d.data c.data = true
    · rw [if_pos h]
      exact (List.Perm.cons d ih).trans (List.Perm.swap c d rest)
    · rw [if_neg h]

/-- Sorting the confirmed codes permutes them. -/
theorem sortCodes_perm (l : List String) : (sortCodes l).Perm l := by
  induction l with
  | nil => exact List.Perm.refl _
  | cons c rest ih =>
    exact (insertSorted_perm c (sortCodes rest)).trans (List.Perm.cons c ih)

/-- Sorting preserves membership. -/
theorem mem_sortCodes (c : String) (l : List String) : c ∈ sortCodes l ↔ c ∈ l :=
  (sortCodes_perm l).mem_iff

/-- Sorting preserves multiplicities. -/
theorem count_sortCodes (c : String) (l : List String) : (sortCodes l).count c = l.count c :=
  (sortCodes_perm l).count_eq c

/-- Unfolding equation of `notifyLoop` on the empty list. -/
theorem notifyLoop_nil (nOk sOk : String → Bool) (notified : List String) :
    notifyLoop nOk sOk [] notified = ⟨notified, [], []⟩ := rfl

/-- Unfolding equation of `notifyLoop` when notification succeeds. -/
theorem notifyLoop_cons_pos (nOk sOk : String → Bool) (c : String) (rest notified : List String)
    (h : nOk c = true) :
    notifyLoop nOk sOk (c :: rest) notified =
      ⟨(notifyLoop nOk sOk rest (notified.insert c)).notifiedSet,
        c :: (notifyLoop nOk sOk rest (notified.insert c)).attempts,
        (if sOk c then [c] else []) ++ (notifyLoop nOk sOk rest (notified.insert c)).ledger⟩ := by
  simp only [notifyLoop, if_pos h]

/-- Unfolding equation of `notifyLoop` when notification fails. -/
theorem notifyLoop_cons_neg (nOk sOk : String → Bool) (c : String) (rest notified : List String)
    (h : nOk c = false) :
    notifyLoop nOk sOk (c :: rest) notified =
      ⟨(notifyLoop nOk sOk rest notified).notifiedSet,
        c :: (notifyLoop nOk sOk rest notified).attempts,
        (notifyLoop nOk sOk rest notified).ledger⟩ := by
  simp only [notifyLoop, h, if_false, Bool.false_eq_true]

/-- The notification loop attempts exactly the codes it is given, in order. -/
theorem notifyLoop_attempts (nOk sOk : String → Bool) (codes notified : List String) :
    (notifyLoop nOk sOk codes notified).attempts = codes := by
  induction codes generalizing notified with
  | nil => rfl
  | cons c rest ih =>
    by_cases h : nOk c = true
    · rw [notifyLoop_cons_pos nOk sOk c rest notified h, ih]
    · rw [notifyLoop_cons_neg nOk sOk c rest notified (by simpa using h), ih]

/-- Membership in the in-memory set after the notification loop: a code is
there iff it was there before, or it was processed and its notification
succeeded. -/
theorem notifyLoop_mem_notifiedSet (nOk sOk : String → Bool) (codes notified : List String)
    (c : String) :
    c ∈ (notifyLoop nOk sOk codes notified).notifiedSet ↔
      c ∈ notified ∨ (c ∈ codes ∧ nOk c = true) := by
  induction codes generalizing notified with
  | nil => simp [notifyLoop_nil]
  | cons d rest ih =>
    by_cases h : nOk d = true
    · rw [notifyLoop_cons_pos nOk sOk d rest notified h]
      rw [ih, List.mem_insert_iff]
      constructor
      · rintro ((rfl | hn) | hr)
        · exact Or.inr ⟨List.mem_cons_self _ _, h⟩
        · exact Or.inl hn
        · exact Or.inr ⟨List.mem_cons_of_mem _ hr.1, hr.2⟩
      · rintro (hn | ⟨hm, hok⟩)
        · exact Or.inl (Or.inr hn)
        · rcases List.mem_cons.mp hm with rfl | hm'
          · exact Or.inl (Or.inl rfl)
          · exact Or.inr ⟨hm', hok⟩
    · rw [notifyLoop_cons_neg nOk sOk d rest notified (by simpa using h)]
      rw [ih]
      constructor
      · rintro (hn | hr)
        · exact Or.inl hn
        · exact Or.inr ⟨List.mem_cons_of_mem _ hr.1, hr.2⟩
      · rintro (hn | ⟨hm, hok⟩)
        · exact Or.inl hn
        · rcases List.mem_cons.mp hm with rfl | hm'
          · exact absurd hok h
          · exact Or.inr ⟨hm', hok⟩

/-- Membership in the ledger after the notification loop: a code was appended
iff it was processed, its notification succeeded, and its file write
succeeded. -/
theorem notifyLoop_mem_ledger (nOk sOk : String → Bool) (codes notified : List String)
    (c : String) :
    c ∈ (notifyLoop nOk sOk codes notified).ledger ↔
      c ∈ codes ∧ nOk c = true ∧ sOk c = true := by
  induction codes generalizing notified with
  | nil => simp [notifyLoop_nil]
  | cons d rest ih =>
    by_cases h : nOk d = true
    · rw [notifyLoop_cons_pos nOk sOk d rest notified h]
      by_cases hs : sOk d = true
      · rw [if_pos hs]
        rw [List.singleton_append, List.mem_cons, ih, List.mem_cons]
        constructor
        · rintro (rfl | ⟨hm, hok, hsk⟩)
          · exact ⟨Or.inl rfl, h, hs⟩
          · exact ⟨Or.inr hm, hok, hsk⟩
        · rintro ⟨rfl | hm, hok, hsk⟩
          · exact Or.inl rfl
          · exact Or.inr ⟨hm, hok, hsk⟩
      · rw [if_neg hs]
        simp only [List.nil_append, ih, List.mem_cons]
        constructor
        · rintro ⟨hm, hok, hsk⟩
          exact ⟨Or.inr hm, hok, hsk⟩
        · rintro ⟨rfl | hm, hok, hsk⟩
          · exact absurd hsk hs
          · exact ⟨hm, hok, hsk⟩
    · rw [notifyLoop_cons_neg nOk sOk d rest notified (by simpa using h)]
      simp only [ih, List.mem_cons]
      constructor
      · rintro ⟨hm, hok, hsk⟩
        exact ⟨Or.inr hm, hok, hsk⟩
      · rintro ⟨rfl | hm, hok, hsk⟩
        · exact absurd hok h
        · exact ⟨hm, hok, hsk⟩

/-- A code is in the trusted bucket iff some accepted post by a trusted author
surfaces it. -/
theorem mem_trusted_codes_this_run (cfg : Config) (posts : List Post) (c : String) :
    c ∈ trusted_codes_this_run cfg posts ↔
      ∃ p ∈ posts, postAccepted cfg p = true ∧ p.author ∈ cfg.trustedUsers ∧
        c ∈ postCandidates cfg p := by
  unfold trusted_codes_this_run acceptedPosts
  rw [List.mem_flatMap]
  constructor
  · rintro ⟨p, hp, hc⟩
    rw [List.mem_filter] at hp
    by_cases ht : cfg.trustedUsers.contains p.author = true
    · rw [if_pos ht] at hc
      exact ⟨p, hp.1, hp.2, List.elem_iff.mp ht, List.mem_dedup.mp hc⟩
    · rw [if_neg ht] at hc
      cases hc
  · rintro ⟨p, hp, hacc, htr, hc⟩
    refine ⟨p, List.mem_filter.mpr ⟨hp, hacc⟩, ?_⟩
    rw [if_pos (List.elem_iff.mpr htr)]
    exact List.mem_dedup.mpr hc

/-- A code is in the regular bucket iff some accepted post by a non-trusted
author surfaces it. -/
theorem mem_all_potential_codes_this_run (cfg : Config) (posts : List Post) (c : String) :
    c ∈ all_potential_codes_this_run cfg posts ↔
      ∃ p ∈ posts, postAccepted cfg p = true ∧ p.author ∉ cfg.trustedUsers ∧
        c ∈ postCandidates cfg p := by
  unfold all_potential_codes_this_run acceptedPosts
  rw [List.mem_flatMap]
  constructor
  · rintro ⟨p, hp, hc⟩
    rw [List.mem_filter] at hp
    by_cases ht : cfg.trustedUsers.contains p.author = true
    · rw [if_pos ht] at hc
      cases hc
    · rw [if_neg ht] at hc
      exact ⟨p, hp.1, hp.2, fun hm => ht (List.elem_iff.mpr hm), List.mem_dedup.mp hc⟩
  · rintro ⟨p, hp, hacc, htr, hc⟩
    refine ⟨p, List.mem_filter.mpr ⟨hp, hacc⟩, ?_⟩
    rw [if_neg (fun ht => htr (List.elem_iff.mp ht))]
    exact List.mem_dedup.mpr hc

/-- The multiplicity of a code in the regular bucket is the number of accepted
posts by non-trusted authors that surface it: repetition inside one post does
not increase it (the per-post candidate list is de-duplicated). -/
theorem count_all_potential_codes_this_run (cfg : Config) (posts : List Post) (c : String) :
    (all_potential_codes_this_run cfg posts).count c =
      posts.countP fun p => postAccepted cfg p && !cfg.trustedUsers.contains p.author
        && decide (c ∈ postCandidates cfg p) := by
  unfold all_potential_codes_this_run acceptedPosts
  induction posts with
  | nil => rfl
  | cons p rest ih =>
    rw [List.countP_cons]
    by_cases hacc : postAccepted cfg p = true
    · rw [List.filter_cons_of_pos hacc, List.flatMap_cons, List.count_append, ih]
      by_cases ht : cfg.trustedUsers.contains p.author = true
      · have hpred : (postAccepted cfg p && !cfg.trustedUsers.contains p.author
            && decide (c ∈ postCandidates cfg p)) = false := by
          rw [ht]
          simp
        rw [if_pos ht, hpred]
        simp
      · have ht' : cfg.trustedUsers.contains p.author = false := Bool.of_not_eq_true ht
        rw [if_neg ht, List.count_dedup]
        by_cases hc : c ∈ postCandidates cfg p
        · have hpred : (postAccepted cfg p && !cfg.trustedUsers.contains p.author
              && decide (c ∈ postCandidates cfg p)) = true := by
            rw [hacc, ht', decide_eq_true hc]
            rfl
          rw [if_pos hc, hpred]
          simp [Nat.add_comm]
        · have hpred : (postAccepted cfg p && !cfg.trustedUsers.contains p.author
              && decide (c ∈ postCandidates cfg p)) = false := by
            rw [decide_eq_false hc]
            simp
          rw [if_neg hc, hpred]
          simp
    · have hacc' : postAccepted cfg p = false := Bool.of_not_eq_true hacc
      rw [List.filter_cons_of_neg hacc]
      have hpred : (postAccepted cfg p && !cfg.trustedUsers.contains p.author
          && decide (c ∈ postCandidates cfg p)) = false := by
        rw [hacc']
        rfl
      rw [ih, hpred]
      simp

/-- A code is confirmed via the trusted path iff it is in the trusted bucket
and not already notified. -/
theorem mem_trustedNewlyConfirmed (cfg : Config) (posts : List Post) (notified : List String)
    (c : String) :
    c ∈ trustedNewlyConfirmed cfg posts notified ↔
      c ∈ trusted_codes_this_run cfg posts ∧ c ∉ notified := by
  unfold trustedNewlyConfirmed
  rw [List.mem_filter, List.mem_dedup]
  constructor
  · rintro ⟨hm, hb⟩
    refine ⟨hm, fun hn => ?_⟩
    have hcontains : notified.contains c = true := List.elem_iff.mpr hn
    rw [hcontains] at hb
    simp at hb
  · rintro ⟨hm, hn⟩
    refine ⟨hm, ?_⟩
    by_cases hb : notified.contains c = true
    · exact absurd (List.elem_iff.mp hb) hn
    · rw [Bool.of_not_eq_true hb]
      rfl

/-- A code is confirmed via the regular path iff it is in the regular bucket
with multiplicity at least 2 and not already notified. -/
theorem mem_regularNewlyConfirmed (cfg : Config) (posts : List Post) (notified : List String)
    (c : String) :
    c ∈ regularNewlyConfirmed cfg posts notified ↔
      c ∈ all_potential_codes_this_run cfg posts ∧
        2 ≤ (all_potential_codes_this_run cfg posts).count c ∧ c ∉ notified := by
  unfold regularNewlyConfirmed
  rw [List.mem_filter, List.mem_dedup]
  constructor
  · rintro ⟨hm, hb⟩
    rcases Bool.and_eq_true_iff.mp hb with ⟨h2, hn⟩
    refine ⟨hm, of_decide_eq_true h2, fun hmem => ?_⟩
    have hcontains : notified.contains c = true := List.elem_iff.mpr hmem
    rw [hcontains] at hn
    simp at hn
  · rintro ⟨hm, h2, hn⟩
    refine ⟨hm, ?_⟩
    rw [decide_eq_true h2]
    by_cases hb : notified.contains c = true
    · exact absurd (List.elem_iff.mp hb) hn
    · rw [Bool.of_not_eq_true hb]
      rfl

/-- A code is in the confirmed sequence of a cycle iff it is confirmed via the
trusted path or via the regular path. -/
theorem mem_newly_confirmed_codes (cfg : Config) (posts : List Post) (notified : List String)
    (c : String) :
    c ∈ newly_confirmed_codes cfg posts notified ↔
      c ∈ trustedNewlyConfirmed cfg posts notified ∨
        c ∈ regularNewlyConfirmed cfg posts notified := by
  unfold newly_confirmed_codes
  rw [mem_sortCodes, List.mem_append]

/-- The trusted confirmations carry no duplicates. -/
theorem nodup_trustedNewlyConfirmed (cfg : Config) (posts : List Post) (notified : List String) :
    (trustedNewlyConfirmed cfg posts notified).Nodup :=
  (List.nodup_dedup _).filter _

/-- The regular confirmations carry no duplicates. -/
theorem nodup_regularNewlyConfirmed (cfg : Config) (posts : List Post) (notified : List String) :
    (regularNewlyConfirmed cfg posts notified).Nodup :=
  (List.nodup_dedup _).filter _

/-- When both transports fail the cycle returns the notified set unchanged,
attempting no notification and writing nothing (app.py:282-284). -/
theorem fetch_and_process_posts_none (cfg : Config) (nOk sOk : String → Bool)
    (notified : List String) :
    fetch_and_process_posts cfg nOk sOk none notified = ⟨notified, [], []⟩ := rfl

/-- Collapsed branch structure of the cycle on a successful fetch: when no code
is confirmed nothing happens, otherwise the notification loop runs over the
sorted confirmed sequence (the early return of app.py:389-391 and the else
branch of app.py:401-402 coincide with the no-confirmation outcome). -/
theorem fetch_and_process_posts_some (cfg : Config) (nOk sOk : String → Bool)
    (posts : List Post) (notified : List String) :
    fetch_and_process_posts cfg nOk sOk (some posts) notified =
      if trustedNewlyConfirmed cfg posts notified ++ regularNewlyConfirmed cfg posts notified = []
        then ⟨notified, [], []⟩
        else notifyLoop nOk sOk (newly_confirmed_codes cfg posts notified) notified := by
  by_cases h : trustedNewlyConfirmed cfg posts notified
      ++ regularNewlyConfirmed cfg posts notified = []
  · rw [if_pos h]
    simp [fetch_and_process_posts, h]
  · rw [if_neg h]
    simp [fetch_and_process_posts, newly_confirmed_codes, h]

/-- In a cycle with a successful fetch, exactly the confirmed sequence is
attempted, in order. -/
theorem fetch_attempts_eq (cfg : Config) (nOk sOk : String → Bool)
    (posts : List Post) (notified : List String) :
    (fetch_and_process_posts cfg nOk sOk (some posts) notified).attempts =
      newly_confirmed_codes cfg posts notified := by
  rw [fetch_and_process_posts_some]
  by_cases h : trustedNewlyConfirmed cfg posts notified
      ++ regularNewlyConfirmed cfg posts notified = []
  · rw [if_pos h]
    unfold newly_confirmed_codes
    rw [h]
    rfl
  · rw [if_neg h]
    exact notifyLoop_attempts nOk sOk _ notified

/-- Membership in the in-memory set after a cycle with a successful fetch. -/
theorem fetch_mem_notifiedSet_some (cfg : Config) (nOk sOk : String → Bool)
    (posts : List Post) (notified : List String) (c : String) :
    c ∈ (fetch_and_process_posts cfg nOk sOk (some posts) notified).notifiedSet ↔
      c ∈ notified ∨ (c ∈ newly_confirmed_codes cfg posts notified ∧ nOk c = true) := by
  rw [fetch_and_process_posts_some]
  by_cases h : trustedNewlyConfirmed cfg posts notified
      ++ regularNewlyConfirmed cfg posts notified = []
  · rw [if_pos h]
    have hempty : newly_confirmed_codes cfg posts notified = [] := by
      unfold newly_confirmed_codes
      rw [h]
      rfl
    simp [hempty]
  · rw [if_neg h]
    exact notifyLoop_mem_notifiedSet nOk sOk _ notified c

/-- Membership in the ledger after a cycle with a successful fetch. -/
theorem fetch_mem_ledger_some (cfg : Config) (nOk sOk : String → Bool)
    (posts : List Post) (notified : List String) (c : String) :
    c ∈ (fetch_and_process_posts cfg nOk sOk (some posts) notified).ledger ↔
      c ∈ newly_confirmed_codes cfg posts notified ∧ nOk c = true ∧ sOk c = true := by
  rw [fetch_and_process_posts_some]
  by_cases h : trustedNewlyConfirmed cfg posts notified
      ++ regularNewlyConfirmed cfg posts notified = []
  · rw [if_pos h]
    have hempty : newly_confirmed_codes cfg posts notified = [] := by
      unfold newly_confirmed_codes
      rw [h]
      rfl
    simp [hempty]
  · rw [if_neg h]
    exact notifyLoop_mem_ledger nOk sOk _ notified c

/-- A small concrete configuration used to exercise the pipeline: one
subreddit accepting all flairs, one accepting a single flair, one trusted
user, and ignored words including the CODE noise word of the spec. -/
def demoConfig : Config where
  subreddits := [("tacticus", []), ("WH40KTacticus", [some "News"])]
  trustedUsers := ["trusted_editor"]
  ignoredWords := ["CODE", "NEW", "JUST"]
  bodyHintPatterns := [fun t => t == "Just a code!"]

/-- A post by the trusted author whose title carries a code. -/
def trustedPost : Post where
  id := "t1"
  title := "WARHAMMER40K"
  flair := none
  selftext := ""
  author := "trusted_editor"
  subreddit := "tacticus"

/-- A post by a non-trusted author whose title carries the same code. -/
def soloPost : Post where
  id := "s1"
  title := "WARHAMMER40K"
  flair := none
  selftext := ""
  author := "user_one"
  subreddit := "tacticus"

/-- First of two independent posts by non-trusted authors carrying one code. -/
def regularPostA : Post where
  id := "r1"
  title := "TACTICUS2025"
  flair := none
  selftext := ""
  author := "user_one"
  subreddit := "tacticus"

/-- Second of two independent posts by non-trusted authors carrying one code. -/
def regularPostB : Post where
  id := "r2"
  title := "TACTICUS2025"
  flair := none
  selftext := ""
  author := "user_two"
  subreddit := "tacticus"

/-- A post whose title is only a body-hint phrase and whose body carries the
code. -/
def hintedPost : Post where
  id := "b1"
  title := "Just a code!"
  flair := none
  selftext := "FREE500GEMS"
  author := "user_one"
  subreddit := "tacticus"

/-- C6: for every accepted post, the body is scanned iff extraction from the
title yields no candidates and some body-hint pattern matches the title: when
the title yields candidates they are exactly the post's candidates, when it
yields none and a hint matches the body's extraction is, and when no hint
matches the post yields nothing — candidates never mix title and body. -/
theorem c6_body_scan_gating (cfg : Config) (p : Post) :
    (extract_potential_codes_from_text cfg.ignoredWords p.title ≠ [] →
      postCandidates cfg p = extract_potential_codes_from_text cfg.ignoredWords p.title) ∧
    (extract_potential_codes_from_text cfg.ignoredWords p.title = [] →
      titleHintsBody cfg p.title = true →
      postCandidates cfg p = extract_potential_codes_from_text cfg.ignoredWords p.selftext) ∧
    (extract_potential_codes_from_text cfg.ignoredWords p.title = [] →
      titleHintsBody cfg p.title = false →
      postCandidates cfg p = []) := by
  by_cases hempty : extract_potential_codes_from_text cfg.ignoredWords p.title = []
  · have hb : (extract_potential_codes_from_text cfg.ignoredWords p.title).isEmpty = true :=
      List.isEmpty_iff.mpr hempty
    refine ⟨fun h1 => absurd hempty h1, fun _ hhint => ?_, fun _ hhint => ?_⟩
    · simp [postCandidates, hb, hhint]
    · simp [postCandidates, hb, hhint]
  · have hb : (extract_potential_codes_from_text cfg.ignoredWords p.title).isEmpty = false := by
      cases hx : extract_potential_codes_from_text cfg.ignoredWords p.title with
      | nil => exact absurd hx hempty
      | cons a l => rfl
    refine ⟨fun _ => ?_, fun h1 _ => absurd h1 hempty, fun h1 _ => absurd h1 hempty⟩
    simp [postCandidates, hb]

/-- C6 witness: on the concrete hinted post the title yields nothing, the hint
fires, and the candidates are exactly the body extraction. -/
theorem c6_witness :
    postCandidates demoConfig hintedPost =
      extract_potential_codes_from_text demoConfig.ignoredWords hintedPost.selftext :=
  ((c6_body_scan_gating demoConfig hintedPost).2).1 (by decide) (by decide)

/-- C7: the Post Filter rejects posts from unknown sources; an empty
allow-list entry accepts any flair; otherwise acceptance is exactly membership
of the post's flair (possibly absent) in the entry. -/
theorem c7_post_filter (cfg : Config) (p : Post) :
    (List.lookup p.subreddit cfg.subreddits = none → postAccepted cfg p = false) ∧
    ∀ entry : List (Option String), List.lookup p.subreddit cfg.subreddits = some entry →
      (entry = [] → postAccepted cfg p = true) ∧
      (entry ≠ [] → (postAccepted cfg p = true ↔ p.flair ∈ entry)) := by
  constructor
  · intro h
    unfold postAccepted
    rw [h]
  · intro entry h
    constructor
    · intro he
      subst he
      unfold postAccepted
      rw [h]
      rfl
    · intro hne
      unfold postAccepted
      rw [h]
      have hie : entry.isEmpty = false := by
        cases entry with
        | nil => exact absurd rfl hne
        | cons a l => rfl
      show (entry.isEmpty || entry.contains p.flair) = true ↔ p.flair ∈ entry
      rw [hie, Bool.false_or]
      exact ⟨fun hx => List.elem_iff.mp hx, fun hx => List.elem_iff.mpr hx⟩

/-- C7 witness: concrete checks of all three behaviours — unknown subreddit
rejected, empty entry accepts a flairless post, non-empty entry decides by
flair membership. -/
theorem c7_witness :
    postAccepted demoConfig { trustedPost with subreddit := "unknown_sub" } = false ∧
    postAccepted demoConfig trustedPost = true ∧
    (postAccepted demoConfig { trustedPost with subreddit := "WH40KTacticus" } = true ↔
      (none : Option String) ∈ [some "News"]) :=
  ⟨(c7_post_filter demoConfig { trustedPost with subreddit := "unknown_sub" }).1 (by decide),
   ((c7_post_filter demoConfig trustedPost).2 [] (by decide)).1 rfl,
   ((c7_post_filter demoConfig { trustedPost with subreddit := "WH40KTacticus" }).2
      [some "News"] (by decide)).2 (by decide)⟩

/-- C5: ledger persistence and the in-memory addition happen only for codes
whose notification succeeds; a code whose notification fails is neither
persisted nor added, leaving the notified set unchanged for it. -/
theorem c5_persist_only_on_success (cfg : Config) (nOk sOk : String → Bool)
    (fetched : Option (List Post)) (notified : List String) (c : String)
    (hfail : nOk c = false) :
    c ∉ (fetch_and_process_posts cfg nOk sOk fetched notified).ledger ∧
    (c ∈ (fetch_and_process_posts cfg nOk sOk fetched notified).notifiedSet ↔ c ∈ notified) ∧
    (∀ d, d ∈ (fetch_and_process_posts cfg nOk sOk fetched notified).ledger → nOk d = true) ∧
    (∀ d, d ∈ (fetch_and_process_posts cfg nOk sOk fetched notified).notifiedSet →
      d ∈ notified ∨ nOk d = true) := by
  cases fetched with
  | none =>
    rw [fetch_and_process_posts_none]
    exact ⟨by simp, by simp, by simp, fun d hd => Or.inl hd⟩
  | some posts =>
    refine ⟨?_, ?_, ?_, ?_⟩
    · rw [fetch_mem_ledger_some]
      rintro ⟨_, hok, _⟩
      rw [hfail] at hok
      exact Bool.false_ne_true hok
    · rw [fetch_mem_notifiedSet_some]
      constructor
      · rintro (h | ⟨_, hok⟩)
        · exact h
        · rw [hfail] at hok
          exact absurd hok Bool.false_ne_true
      · exact Or.inl
    · intro d hd
      rw [fetch_mem_ledger_some] at hd
      exact hd.2.1
    · intro d hd
      rw [fetch_mem_notifiedSet_some] at hd
      rcases hd with h | ⟨_, hok⟩
      · exact Or.inl h
      · exact Or.inr hok

/-- C5 witness: with a notifier that always fails, a cycle over two
corroborating posts persists nothing and leaves the notified set empty. -/
theorem c5_witness :
    "TACTICUS2025" ∉ (fetch_and_process_posts demoConfig (fun _ => false) (fun _ => true)
        (some [regularPostA, regularPostB]) []).ledger ∧
    ("TACTICUS2025" ∈ (fetch_and_process_posts demoConfig (fun _ => false) (fun _ => true)
        (some [regularPostA, regularPostB]) []).notifiedSet ↔
      "TACTICUS2025" ∈ ([] : List String)) :=
  ⟨(c5_persist_only_on_success demoConfig (fun _ => false) (fun _ => true)
      (some [regularPostA, regularPostB]) [] "TACTICUS2025" rfl).1,
   (c5_persist_only_on_success demoConfig (fun _ => false) (fun _ => true)
      (some [regularPostA, regularPostB]) [] "TACTICUS2025" rfl).2.1⟩

/-- C10: the cycle entry point only ever adds codes to the in-memory notified
set — every code of the input set is in the returned set, on the fetch-failure
path as well as on every processing path. -/
theorem c10_notified_monotone (cfg : Config) (nOk sOk : String → Bool)
    (fetched : Option (List Post)) (notified : List String) (c : String)
    (h : c ∈ notified) :
    c ∈ (fetch_and_process_posts cfg nOk sOk fetched notified).notifiedSet := by
  cases fetched with
  | none => exact h
  | some posts => exact (fetch_mem_notifiedSet_some cfg nOk sOk posts notified c).mpr (Or.inl h)

/-- C10 witness: a previously notified code survives both a failed fetch and a
cycle that confirms and notifies new codes. -/
theorem c10_witness :
    "OLDCODE99" ∈ (fetch_and_process_posts demoConfig (fun _ => true) (fun _ => true)
        none ["OLDCODE99"]).notifiedSet ∧
    "OLDCODE99" ∈ (fetch_and_process_posts demoConfig (fun _ => true) (fun _ => true)
        (some [regularPostA, regularPostB]) ["OLDCODE99"]).notifiedSet :=
  ⟨c10_notified_monotone demoConfig (fun _ => true) (fun _ => true) none ["OLDCODE99"]
      "OLDCODE99" (by decide),
   c10_notified_monotone demoConfig (fun _ => true) (fun _ => true)
      (some [regularPostA, regularPostB]) ["OLDCODE99"] "OLDCODE99" (by decide)⟩

/-- C2 counterexample: with a notifier that succeeds and a ledger write that
fails, the confirmed code IS added to the in-memory notified set (and is
absent from the ledger), contradicting the claim that a ledger-write failure
keeps the code out of the in-memory set. -/
theorem c2_counterexample :
    "TACTICUS2025" ∈ (fetch_and_process_posts demoConfig (fun _ => true) (fun _ => false)
        (some [regularPostA, regularPostB]) []).notifiedSet ∧
    "TACTICUS2025" ∉ (fetch_and_process_posts demoConfig (fun _ => true) (fun _ => false)
        (some [regularPostA, regularPostB]) []).ledger := by
  decide

/-- C2 (amended): `save_notified_code` swallows the write error, so after a
successful notification the code is added to the in-memory set whether or not
the ledger append succeeded; a failed append only means the code is missing
from the ledger (it is not retried while the process lives). -/
theorem c2_ledger_failure_code_still_marked (nOk sOk : String → Bool)
    (codes notified : List String) (c : String) (hc : c ∈ codes) (hok : nOk c = true) :
    c ∈ (notifyLoop nOk sOk codes notified).notifiedSet ∧
      (sOk c = false → c ∉ (notifyLoop nOk sOk codes notified).ledger) := by
  refine ⟨(notifyLoop_mem_notifiedSet nOk sOk codes notified c).mpr (Or.inr ⟨hc, hok⟩),
    fun hsf hmem => ?_⟩
  rcases (notifyLoop_mem_ledger nOk sOk codes notified c).mp hmem with ⟨_, _, hsk⟩
  rw [hsf] at hsk
  exact Bool.false_ne_true hsk

/-- C2 witness: concrete run of the notification loop with a failing ledger
write — the code lands in the in-memory set and not in the ledger. -/
theorem c2_witness :
    "TACTICUS2025" ∈ (notifyLoop (fun _ => true) (fun _ => false)
        ["TACTICUS2025"] []).notifiedSet ∧
      ((fun _ => (false : Bool)) "TACTICUS2025" = false →
        "TACTICUS2025" ∉ (notifyLoop (fun _ => true) (fun _ => false)
          ["TACTICUS2025"] []).ledger) :=
  c2_ledger_failure_code_still_marked (fun _ => true) (fun _ => false)
    ["TACTICUS2025"] [] "TACTICUS2025" (by decide) rfl

/-- A post by the trusted author carrying the code that two non-trusted posts
also carry, to make one code qualify through both buckets in one cycle. -/
def bothPathsPost : Post where
  id := "d1"
  title := "DOUBLEX"
  flair := none
  selftext := ""
  author := "trusted_editor"
  subreddit := "tacticus"

/-- First non-trusted corroborating post for the doubly-qualifying code. -/
def bothPathsRegularA : Post where
  id := "d2"
  title := "DOUBLEX"
  flair := none
  selftext := ""
  author := "user_one"
  subreddit := "tacticus"

/-- Second non-trusted corroborating post for the doubly-qualifying code. -/
def bothPathsRegularB : Post where
  id := "d3"
  title := "DOUBLEX"
  flair := none
  selftext := ""
  author := "user_two"
  subreddit := "tacticus"

/-- C1 counterexample: a code qualifying via the trust bypass AND via the
count ≥ 2 threshold in the same cycle appears twice in the confirmed sequence
and is attempted twice by the notification loop — the union of the buckets is
not de-duplicated. -/
theorem c1_counterexample :
    (newly_confirmed_codes demoConfig [bothPathsPost, bothPathsRegularA, bothPathsRegularB]
        []).count "DOUBLEX" = 2 ∧
    ((fetch_and_process_posts demoConfig (fun _ => true) (fun _ => true)
        (some [bothPathsPost, bothPathsRegularA, bothPathsRegularB]) []).attempts.count
        "DOUBLEX") = 2 := by
  decide

/-- C1 (amended): each bucket is de-duplicated separately but the union is
not: the multiplicity of a code in the confirmed sequence — and the number of
notification attempts made for it — is the number of buckets through which it
qualifies, so a code qualifying via both the trust bypass and the repetition
threshold appears twice and is attempted twice, while a code qualifying via a
single path appears exactly once. -/
theorem c1_confirmed_multiplicity (cfg : Config) (nOk sOk : String → Bool)
    (posts : List Post) (notified : List String) (c : String) :
    (newly_confirmed_codes cfg posts notified).count c =
      (if c ∈ trustedNewlyConfirmed cfg posts notified then 1 else 0) +
      (if c ∈ regularNewlyConfirmed cfg posts notified then 1 else 0) ∧
    (fetch_and_process_posts cfg nOk sOk (some posts) notified).attempts.count c =
      (newly_confirmed_codes cfg posts notified).count c := by
  constructor
  · have h1 : (trustedNewlyConfirmed cfg posts notified).count c =
        if c ∈ trustedNewlyConfirmed cfg posts notified then 1 else 0 := by
      by_cases h : c ∈ trustedNewlyConfirmed cfg posts notified
      · rw [if_pos h]
        exact List.count_eq_one_of_mem (nodup_trustedNewlyConfirmed cfg posts notified) h
      · rw [if_neg h]
        exact List.count_eq_zero.mpr h
    have h2 : (regularNewlyConfirmed cfg posts notified).count c =
        if c ∈ regularNewlyConfirmed cfg posts notified then 1 else 0 := by
      by_cases h : c ∈ regularNewlyConfirmed cfg posts notified
      · rw [if_pos h]
        exact List.count_eq_one_of_mem (nodup_regularNewlyConfirmed cfg posts notified) h
      · rw [if_neg h]
        exact List.count_eq_zero.mpr h
    unfold newly_confirmed_codes
    rw [count_sortCodes, List.count_append, h1, h2]
  · rw [fetch_attempts_eq]

/-- C3: a candidate from an accepted post by a trusted author, not already
notified, is confirmed that cycle even when a single post surfaces it; the
same code surfaced by exactly one accepted post, all of whose surfacing
authors are non-trusted, is not confirmed. -/
theorem c3_trust_bypass (cfg : Config) (posts : List Post) (notified : List String)
    (c : String) :
    (∀ p ∈ posts, postAccepted cfg p = true → p.author ∈ cfg.trustedUsers →
      c ∈ postCandidates cfg p → c ∉ notified →
      c ∈ newly_confirmed_codes cfg posts notified) ∧
    ((posts.countP fun p => postAccepted cfg p && decide (c ∈ postCandidates cfg p)) = 1 →
      (∀ p ∈ posts, postAccepted cfg p = true → c ∈ postCandidates cfg p →
        p.author ∉ cfg.trustedUsers) →
      c ∉ newly_confirmed_codes cfg posts notified) := by
  constructor
  · intro p hp hacc htr hc hn
    rw [mem_newly_confirmed_codes]
    exact Or.inl ((mem_trustedNewlyConfirmed cfg posts notified c).mpr
      ⟨(mem_trusted_codes_this_run cfg posts c).mpr ⟨p, hp, hacc, htr, hc⟩, hn⟩)
  · intro hcount hnt hmem
    rw [mem_newly_confirmed_codes] at hmem
    rcases hmem with h | h
    · rcases (mem_trustedNewlyConfirmed cfg posts notified c).mp h with ⟨htb, _⟩
      rcases (mem_trusted_codes_this_run cfg posts c).mp htb with ⟨p, hp, hacc, htr, hc⟩
      exact hnt p hp hacc hc htr
    · rcases (mem_regularNewlyConfirmed cfg posts notified c).mp h with ⟨_, h2, _⟩
      rw [count_all_potential_codes_this_run] at h2
      have hle : (posts.countP fun p => postAccepted cfg p
            && !cfg.trustedUsers.contains p.author && decide (c ∈ postCandidates cfg p)) ≤
          posts.countP fun p => postAccepted cfg p && decide (c ∈ postCandidates cfg p) := by
        apply List.countP_mono_left
        intro p _ hpred
        rcases Bool.and_eq_true_iff.mp hpred with ⟨hab, hcp⟩
        rcases Bool.and_eq_true_iff.mp hab with ⟨ha, _⟩
        exact Bool.and_eq_true_iff.mpr ⟨ha, hcp⟩
      omega

/-- C3 witness: the code confirms from one trusted post and does not confirm
from one non-trusted post. -/
theorem c3_witness :
    "WARHAMMER40K" ∈ newly_confirmed_codes demoConfig [trustedPost] [] ∧
    "WARHAMMER40K" ∉ newly_confirmed_codes demoConfig [soloPost] [] :=
  ⟨(c3_trust_bypass demoConfig [trustedPost] [] "WARHAMMER40K").1 trustedPost
      (List.mem_cons_self trustedPost []) (by decide) (by decide) (by decide) (by decide),
   (c3_trust_bypass demoConfig [soloPost] [] "WARHAMMER40K").2 (by decide) (by decide)⟩

/-- C4: for a code surfaced only by non-trusted authors, the regular-bucket
count is the number of accepted posts surfacing it (within-post repetition
counts once, by per-post de-duplication), and the code is confirmed iff that
count is at least 2 and it is not already notified — so a count of exactly 1
never confirms. -/
theorem c4_repetition_threshold (cfg : Config) (posts : List Post) (notified : List String)
    (c : String)
    (hnt : ∀ p ∈ posts, postAccepted cfg p = true → c ∈ postCandidates cfg p →
      p.author ∉ cfg.trustedUsers) :
    (all_potential_codes_this_run cfg posts).count c =
      (posts.countP fun p => postAccepted cfg p && decide (c ∈ postCandidates cfg p)) ∧
    (c ∈ newly_confirmed_codes cfg posts notified ↔
      2 ≤ (posts.countP fun p => postAccepted cfg p && decide (c ∈ postCandidates cfg p)) ∧
        c ∉ notified) := by
  have hcount : (all_potential_codes_this_run cfg posts).count c =
      posts.countP fun p => postAccepted cfg p && decide (c ∈ postCandidates cfg p) := by
    rw [count_all_potential_codes_this_run]
    apply List.countP_congr
    intro p hp
    constructor
    · intro h
      rcases Bool.and_eq_true_iff.mp h with ⟨hab, hcp⟩
      rcases Bool.and_eq_true_iff.mp hab with ⟨ha, _⟩
      exact Bool.and_eq_true_iff.mpr ⟨ha, hcp⟩
    · intro h
      rcases Bool.and_eq_true_iff.mp h with ⟨ha, hcp⟩
      have hnotr : p.author ∉ cfg.trustedUsers := hnt p hp ha (of_decide_eq_true hcp)
      have hcf : cfg.trustedUsers.contains p.author = false := by
        by_cases hb : cfg.trustedUsers.contains p.author = true
        · exact absurd (List.elem_iff.mp hb) hnotr
        · exact Bool.of_not_eq_true hb
      refine Bool.and_eq_true_iff.mpr ⟨Bool.and_eq_true_iff.mpr ⟨ha, ?_⟩, hcp⟩
      rw [hcf]
      rfl
  refine ⟨hcount, ?_⟩
  rw [mem_newly_confirmed_codes]
  constructor
  · rintro (h | h)
    · rcases (mem_trustedNewlyConfirmed cfg posts notified c).mp h with ⟨htb, _⟩
      rcases (mem_trusted_codes_this_run cfg posts c).mp htb with ⟨p, hp, hacc, htr, hc⟩
      exact absurd htr (hnt p hp hacc hc)
    · rcases (mem_regularNewlyConfirmed cfg posts notified c).mp h with ⟨_, h2, hn⟩
      rw [hcount] at h2
      exact ⟨h2, hn⟩
  · rintro ⟨h2, hn⟩
    refine Or.inr ((mem_regularNewlyConfirmed cfg posts notified c).mpr ?_)
    have h2' : 2 ≤ (all_potential_codes_this_run cfg posts).count c := by
      rw [hcount]
      exact h2
    have hmem : c ∈ all_potential_codes_this_run cfg posts :=
      List.count_pos_iff.mp (by omega)
    exact ⟨hmem, h2', hn⟩

/-- C4 witness: the code carried by exactly two independent non-trusted posts
confirms, and the same code carried by exactly one such post does not. -/
theorem c4_witness :
    "TACTICUS2025" ∈ newly_confirmed_codes demoConfig [regularPostA, regularPostB] [] ∧
    "TACTICUS2025" ∉ newly_confirmed_codes demoConfig [regularPostA] [] :=
  ⟨((c4_repetition_threshold demoConfig [regularPostA, regularPostB] [] "TACTICUS2025"
        (by decide)).2).mpr (by decide),
   fun hmem => by
      have h := ((c4_repetition_threshold demoConfig [regularPostA] [] "TACTICUS2025"
        (by decide)).2).mp hmem
      exact absurd h.1 (by decide)⟩

/-- C8: the Confirmation Engine is idempotent with respect to the notified
set: an already-notified code never appears in the confirmed sequence even
when it still meets the trust or repetition criteria, and re-running the
engine on the same posts after adding the previous confirmations to the set
confirms nothing. -/
theorem c8_confirm_idempotent (cfg : Config) (posts : List Post) (notified : List String) :
    (∀ c ∈ notified, c ∉ newly_confirmed_codes cfg posts notified) ∧
    newly_confirmed_codes cfg posts
        (notified ++ newly_confirmed_codes cfg posts notified) = [] := by
  constructor
  · intro c hc hmem
    rw [mem_newly_confirmed_codes] at hmem
    rcases hmem with h | h
    · exact ((mem_trustedNewlyConfirmed cfg posts notified c).mp h).2 hc
    · exact ((mem_regularNewlyConfirmed cfg posts notified c).mp h).2.2 hc
  · have ht : trustedNewlyConfirmed cfg posts
        (notified ++ newly_confirmed_codes cfg posts notified) = [] := by
      unfold trustedNewlyConfirmed
      rw [List.filter_eq_nil_iff]
      intro c hc hb
      have hnot : c ∉ notified ++ newly_confirmed_codes cfg posts notified := by
        intro hmem
        have hcont : (notified ++ newly_confirmed_codes cfg posts notified).contains c = true :=
          List.elem_iff.mpr hmem
        rw [hcont] at hb
        simp at hb
      apply hnot
      rw [List.mem_append]
      by_cases hn : c ∈ notified
      · exact Or.inl hn
      · refine Or.inr ?_
        rw [mem_newly_confirmed_codes]
        exact Or.inl ((mem_trustedNewlyConfirmed cfg posts notified c).mpr
          ⟨List.mem_dedup.mp hc, hn⟩)
    have hr : regularNewlyConfirmed cfg posts
        (notified ++ newly_confirmed_codes cfg posts notified) = [] := by
      unfold regularNewlyConfirmed
      rw [List.filter_eq_nil_iff]
      intro c hc hb
      rcases Bool.and_eq_true_iff.mp hb with ⟨h2, hnb⟩
      have hnot : c ∉ notified ++ newly_confirmed_codes cfg posts notified := by
        intro hmem
        have hcont : (notified ++ newly_confirmed_codes cfg posts notified).contains c = true :=
          List.elem_iff.mpr hmem
        rw [hcont] at hnb
        simp at hnb
      apply hnot
      rw [List.mem_append]
      by_cases hn : c ∈ notified
      · exact Or.inl hn
      · refine Or.inr ?_
        rw [mem_newly_confirmed_codes]
        exact Or.inr ((mem_regularNewlyConfirmed cfg posts notified c).mpr
          ⟨List.mem_dedup.mp hc, of_decide_eq_true h2, hn⟩)
    show sortCodes
        (trustedNewlyConfirmed cfg posts (notified ++ newly_confirmed_codes cfg posts notified)
          ++ regularNewlyConfirmed cfg posts
            (notified ++ newly_confirmed_codes cfg posts notified)) = []
    rw [ht, hr]
    rfl

/-- C8 witness: an already-notified trusted code is never re-confirmed, and
the second run over the same posts with the first run's confirmations added
confirms nothing. -/
theorem c8_witness :
    "WARHAMMER40K" ∉ newly_confirmed_codes demoConfig [trustedPost] ["WARHAMMER40K"] ∧
    newly_confirmed_codes demoConfig [trustedPost]
        ([] ++ newly_confirmed_codes demoConfig [trustedPost] []) = [] :=
  ⟨(c8_confirm_idempotent demoConfig [trustedPost] ["WARHAMMER40K"]).1 "WARHAMMER40K"
      (by decide),
   (c8_confirm_idempotent demoConfig [trustedPost] []).2⟩

/-- Candidate characters are not lower-case ASCII, so the case-folding map
leaves them unchanged. -/
theorem upChar_eq_of_isCandidateChar (c : Char) (h : isCandidateChar c = true) :
    upChar c = c := by
  rcases Bool.or_eq_true_iff.mp h with h1 | h2
  · rcases Bool.or_eq_true_iff.mp h1 with hu | hd
    · have hu' := of_decide_eq_true hu
      unfold upChar
      rw [if_neg (by omega)]
    · have hd' := of_decide_eq_true hd
      unfold upChar
      rw [if_neg (by omega)]
  · have hc : c = '-' := eq_of_beq h2
    subst hc
    rfl

/-- A string made only of candidate characters is fixed by the case-folding. -/
theorem pyUpper_eq_of_all_candidate (s : String)
    (h : ∀ c ∈ s.data, isCandidateChar c = true) : pyUpper s = s := by
  unfold pyUpper
  have hmap : s.data.map upChar = s.data := by
    calc s.data.map upChar
        = s.data.map id :=
          List.map_congr_left (fun c hc => upChar_eq_of_isCandidateChar c (h c hc))
      _ = s.data := List.map_id s.data
  rw [hmap]

/-- A referral-shaped character list consists only of candidate characters and
has length 10 or 11. -/
theorem referralShape_all_candidate (l : List Char) (h : referralShape l = true) :
    (∀ c ∈ l, isCandidateChar c = true) ∧ (l.length = 10 ∨ l.length = 11) := by
  unfold referralShape at h
  split at h
  · rename_i a b c d e f g h8
    simp only [Bool.and_eq_true] at h
    obtain ⟨⟨⟨⟨⟨⟨⟨ha, hb⟩, hc⟩, hd⟩, he⟩, hf⟩, hg⟩, hh⟩ := h
    refine ⟨?_, Or.inl rfl⟩
    intro x hx
    simp only [List.mem_cons, List.not_mem_nil, or_false] at hx
    rcases hx with rfl | rfl | rfl | rfl | rfl | rfl | rfl | rfl | rfl | rfl
    all_goals simp [isCandidateChar, ha, hb, hc, hd, he, hf, hg, hh]
  · rename_i a b c d e f g h8 i
    simp only [Bool.and_eq_true] at h
    obtain ⟨⟨⟨⟨⟨⟨⟨⟨ha, hb⟩, hc⟩, hd⟩, he⟩, hf⟩, hg⟩, hh⟩, hi⟩ := h
    refine ⟨?_, Or.inr rfl⟩
    intro x hx
    simp only [List.mem_cons, List.not_mem_nil, or_false] at hx
    rcases hx with rfl | rfl | rfl | rfl | rfl | rfl | rfl | rfl | rfl | rfl | rfl
    all_goals simp [isCandidateChar, ha, hb, hc, hd, he, hf, hg, hh, hi]
  · simp at h

/-- On input made only of candidate characters the run-splitter returns the
single maximal run consisting of the whole input (prefixed by the pending
accumulator). -/
theorem splitRunsAux_all_candidate :
    ∀ cs : List Char, (∀ c ∈ cs, isCandidateChar c = true) →
      ∀ acc : List Char, splitRunsAux cs acc =
        if acc.reverse ++ cs = [] then [] else [acc.reverse ++ cs] := by
  intro cs
  induction cs with
  | nil =>
    intro _ acc
    by_cases ha : acc = []
    · subst ha
      rfl
    · have h1 : acc.isEmpty = false := by
        cases acc with
        | nil => exact absurd rfl ha
        | cons x xs => rfl
      have h2 : acc.reverse ++ ([] : List Char) ≠ [] := by
        rw [List.append_nil]
        simpa using ha
      simp only [splitRunsAux, h1]
      rw [if_neg h2, List.append_nil]
      simp
  | cons c rest ih =>
    intro h acc
    have hc : isCandidateChar c = true := h c (List.mem_cons_self c rest)
    have hrest : ∀ x ∈ rest, isCandidateChar x = true :=
      fun x hx => h x (List.mem_cons_of_mem c hx)
    have hne1 : (c :: acc).reverse ++ rest ≠ [] := by simp
    have hne2 : acc.reverse ++ c :: rest ≠ [] := by simp
    simp only [splitRunsAux, hc, if_true]
    rw [ih hrest (c :: acc), if_neg hne1, if_neg hne2]
    simp

/-- On a referral-shaped input the modelled findall returns the whole input as
its sole token. -/
theorem candidateFindall_referral (w : String) (h : referralMatch w = true) :
    candidateFindall w = [w] := by
  have hall := (referralShape_all_candidate w.data h).1
  have hlen := (referralShape_all_candidate w.data h).2
  have hne : w.data ≠ [] := by
    intro hh
    rw [hh] at hlen
    rcases hlen with h10 | h10 <;> simp at h10
  unfold candidateFindall
  rw [splitRunsAux_all_candidate w.data hall [], List.reverse_nil, List.nil_append,
    if_neg hne]
  have hpred : decide (3 ≤ w.data.length ∧ w.data.length ≤ 25) = true := by
    rcases hlen with h10 | h11
    · rw [h10]
      rfl
    · rw [h11]
      rfl
  simp only [List.filter_cons, hpred, List.filter_nil, List.map_cons, List.map_nil]
  cases w
  rfl

/-- C9: extraction never returns a referral-shaped token nor an ignored word,
and an input that is exactly a referral code extracts to nothing. -/
theorem c9_extract_never_referral_or_ignored (ignored : List String) (text : String) :
    (∀ w ∈ extract_potential_codes_from_text ignored text,
      referralMatch w = false ∧ w ∉ ignored) ∧
    (∀ w : String, referralMatch w = true →
      extract_potential_codes_from_text ignored w = []) := by
  constructor
  · intro w hw
    unfold extract_potential_codes_from_text at hw
    by_cases ht : text = ""
    · rw [if_pos ht] at hw
      cases hw
    · rw [if_neg ht] at hw
      rcases List.mem_filter.mp hw with ⟨_, hpred⟩
      rcases Bool.and_eq_true_iff.mp hpred with ⟨hr, hi⟩
      refine ⟨?_, fun hmem => ?_⟩
      · cases hrm : referralMatch w with
        | false => rfl
        | true =>
          rw [hrm] at hr
          simp at hr
      · have hcont : ignored.contains w = true := List.elem_iff.mpr hmem
        rw [hcont] at hi
        simp at hi
  · intro w href
    have hne : w ≠ "" := by
      intro hh
      subst hh
      exact absurd href (by decide)
    unfold extract_potential_codes_from_text
    rw [if_neg hne,
      pyUpper_eq_of_all_candidate w (referralShape_all_candidate w.data href).1,
      candidateFindall_referral w href]
    simp [referralMatch] at href ⊢
    simp [href]

/-- C9 witness: the referral-shaped input extracts to nothing, and on an input
carrying both a real candidate and an ignored word the surviving token is
neither referral-shaped nor ignored. -/
theorem c9_witness :
    extract_potential_codes_from_text ["CODE"] "ABC-12-DEF" = [] ∧
    (referralMatch "WARHAMMER40K" = false ∧ "WARHAMMER40K" ∉ ["CODE"]) :=
  ⟨(c9_extract_never_referral_or_ignored ["CODE"] "ABC-12-DEF").2 "ABC-12-DEF" (by decide),
   (c9_extract_never_referral_or_ignored ["CODE"] "new CODE WARHAMMER40K").1 "WARHAMMER40K"
      (by decide)⟩
